import Mathlib

/-!
# Node identity persistence (`influxdb/node.go`)

A shallow embedding of `node.go`: the `Node` record, `NewNode`, `Node.Save`,
`Node.AddMetaServers`, `upgradeNodeFile` and `LoadNode`, over an explicit file-system state.

Modelling conventions
* The file system is a finite map from full path names to file contents, written as a
  function `String → Option String`.  `filepath.Join dir name` is `dir ++ "/" ++ name`.
* Every call into `os` / `ioutil` / the encoder's writer may fail.  The failures of one
  `LoadNode` (or `Save`) run are given by a `Faults` record with one field per call site.
  A failed call leaves the file system as it was, except for a failed write, which leaves the
  bytes written so far in the temporary file.
* `encoding/json` is not part of this package; it enters through a `Codec` record.  Theorems
  that need the encoding to be reversible ask for it at the identity concerned only.
  `plainJSON` is a concrete codec for the compact layout `json.Encoder` writes.
* `uint64` is `Nat`; `strconv.ParseUint s 10 64` is modelled with its cutoff and range checks.
* A nil slice and an empty slice are both the empty list.
* Go's map iteration order is unspecified: `AddMetaServers` takes the order as a parameter.
-/

namespace Influxdb

/-! ## Constants and the data model -/

def nodeFile : String := "node.json"
def oldNodeFile : String := "id"
def peersFilename : String := "peers.json"

/-- The errors the package can return. -/
inductive Error where
  /-- the file does not exist (`os.IsNotExist`) -/
  | notExist
  /-- any other failure of a file-system call -/
  | ioFailure
  /-- the `fmt.Errorf("to upgrade a cluster, ...")` error of `upgradeNodeFile` -/
  | clusterUpgrade
  /-- `strconv.ErrSyntax` -/
  | badSyntax
  /-- `strconv.ErrRange` -/
  | outOfRange
  /-- the decoder rejected the content of `node.json` -/
  | decodeFailure
  deriving DecidableEq, Repr

/-- The outcome of a call that returns `error` (and possibly a value). -/
inductive Res (α : Type) where
  | ok (a : α)
  | err (e : Error)
  deriving DecidableEq, Repr

/-- The Go struct `Node`. -/
structure Node where
  path : String
  ID : Nat
  MetaServers : List String
  deriving DecidableEq, Repr

/-- The file system: the content of every existing file, by full path. -/
abbrev FS := String → Option String

/-- The result of `filepath.Join dir name`. -/
def join (dir name : String) : String := dir ++ "/" ++ name

/-- Create or replace the file `p` with content `c`. -/
def FS.write (fs : FS) (p c : String) : FS := fun q => if q = p then some c else fs q

/-- Delete the file `p`. -/
def FS.remove (fs : FS) (p : String) : FS := fun q => if q = p then none else fs q

/-- Move `src` over `dst` (`os.Rename`): `dst` gets the content of `src`, and `src` is gone. -/
def FS.rename (fs : FS) (src dst : String) : FS :=
  fun q => if q = dst then fs src else if q = src then none else fs q

/-- The part of `encoding/json` the package uses. -/
structure Codec where
  /-- the bytes `json.NewEncoder(f).Encode(n)` writes for a node with this `ID` and
  `MetaServers` (the unexported `path` is not encoded) -/
  encodeNode : Nat → List String → String
  /-- the fields `json.NewDecoder(f).Decode(n)` leaves in a fresh node, `none` on an error -/
  decodeNode : String → Option (Nat × List String)
  /-- the value of `peers` after `json.Unmarshal(pb, &peers)` on an empty slice; the error of
  the call is discarded by `upgradeNodeFile` -/
  decodePeers : String → List String

/-- Which file-system calls of one run fail. -/
structure Faults where
  /-- `ioutil.ReadFile(oldFile)` fails with an error other than not-exist -/
  readOld : Bool := false
  /-- `ioutil.ReadFile(peers file)` fails with an error other than not-exist -/
  readPeers : Bool := false
  /-- `os.Create(tmpFile)` fails -/
  create : Bool := false
  /-- `Encode` fails, having left these bytes in the temporary file -/
  encode : Option String := none
  /-- `f.Close()` fails -/
  close : Bool := false
  /-- `os.Rename(tmpFile, file)` fails -/
  rename : Bool := false
  /-- `os.Remove(oldFile)` fails -/
  remove : Bool := false
  /-- `os.Open(node.json)` fails with an error other than not-exist -/
  openNode : Bool := false
  /-- reading from the opened `node.json` fails inside `Decode` -/
  readNode : Bool := false
  deriving DecidableEq, Repr

/-- The run in which no call fails. -/
def noFaults : Faults := {}

/-! ## `strconv.ParseUint(s, 10, 64)` -/

def maxUint64 : Nat := 2 ^ 64 - 1

/-- The `cutoff` of `ParseUint` for base 10: the least `n` with `n * 10 > maxUint64`. -/
def cutoff10 : Nat := maxUint64 / 10 + 1

/-- The value of a decimal digit, `none` for every other character. -/
def digitVal (c : Char) : Option Nat :=
  if 48 ≤ c.toNat ∧ c.toNat ≤ 57 then some (c.toNat - 48) else none

/-- The loop of `ParseUint` over the remaining characters, `n` being the number read so far. -/
def parseUintLoop : List Char → Nat → Res Nat
  | [], n => .ok n
  | c :: cs, n =>
    match digitVal c with
    | none => .err .badSyntax
    | some d =>
      if cutoff10 ≤ n then .err .outOfRange
      else if maxUint64 < n * 10 + d then .err .outOfRange
      else parseUintLoop cs (n * 10 + d)

/-- The call `strconv.ParseUint(s, 10, 64)`. -/
def ParseUint (s : String) : Res Nat :=
  if s = "" then .err .badSyntax else parseUintLoop s.toList 0

/-! ## The operations of `node.go` -/

/-- The constructor `NewNode`. -/
def NewNode (path : String) (addrs : List String) : Node :=
  { path := path, ID := 0, MetaServers := addrs }

/-- The method `Node.Save`. -/
def Save (c : Codec) (f : Faults) (n : Node) (fs : FS) : FS × Res Unit :=
  let file := join n.path nodeFile
  let tmpFile := file ++ "tmp"
  if f.create then (fs, .err .ioFailure)
  else
    let fs1 := fs.write tmpFile ""
    match f.encode with
    | some written => (fs1.write tmpFile written, .err .ioFailure)
    | none =>
      let fs2 := fs1.write tmpFile (c.encodeNode n.ID n.MetaServers)
      if f.close then (fs2, .err .ioFailure)
      else if f.rename then (fs2, .err .ioFailure)
      else (fs2.rename tmpFile file, .ok ())

/-- The function `upgradeNodeFile`. -/
def upgradeNodeFile (c : Codec) (f : Faults) (path : String) (addrs : List String) (fs : FS) :
    FS × Res Unit :=
  let oldFile := join path oldNodeFile
  if f.readOld then (fs, .err .ioFailure)
  else
    match fs oldFile with
    | none => (fs, .ok ())
    | some b =>
      if b = "" then (fs, .ok ())
      else if f.readPeers then (fs, .err .ioFailure)
      else
        match fs (join path peersFilename) with
        | none => (fs, .ok ())
        | some pb =>
          if 1 < (c.decodePeers pb).length then (fs, .err .clusterUpgrade)
          else
            match ParseUint b with
            | .err e => (fs, .err e)
            | .ok v =>
              match Save c f { path := path, ID := v, MetaServers := addrs } fs with
              | (fs1, .err e) => (fs1, .err e)
              | (fs1, .ok _) =>
                if f.remove then (fs1, .err .ioFailure)
                else (fs1.remove oldFile, .ok ())

/-- The function `LoadNode`. -/
def LoadNode (c : Codec) (f : Faults) (path : String) (addrs : List String) (fs : FS) :
    FS × Res Node :=
  match upgradeNodeFile c f path addrs fs with
  | (fs1, .err e) => (fs1, .err e)
  | (fs1, .ok _) =>
    if f.openNode then (fs1, .err .ioFailure)
    else
      match fs1 (join path nodeFile) with
      | none => (fs1, .err .notExist)
      | some content =>
        if f.readNode then (fs1, .err .ioFailure)
        else
          match c.decodeNode content with
          | none => (fs1, .err .decodeFailure)
          | some (v, ms) => (fs1, .ok { path := path, ID := v, MetaServers := ms })

/-- The key set of the Go map `unique` after `unique[addr] = struct{}{}`. -/
def mapInsert (keys : List String) (addr : String) : List String :=
  if addr ∈ keys then keys else keys ++ [addr]

/-- The method `Node.AddMetaServers`; `order` is the order in which `range unique` visits
the keys of the map. -/
def AddMetaServers (order : List String → List String) (n : Node) (addrs : List String) :
    Node :=
  let unique := n.MetaServers.foldl mapInsert []
  let unique := addrs.foldl mapInsert unique
  { n with MetaServers := (order unique).foldl (fun metaServers addr => metaServers ++ [addr]) [] }

end Influxdb

namespace Influxdb

/-! ## A concrete codec: the compact JSON layout written by `json.Encoder` -/

namespace PlainJSON

def quoteChar : Char := Char.ofNat 34
def backslashChar : Char := Char.ofNat 92

/-- One hexadecimal digit, lower case. -/
def hexDigit (n : Nat) : Char :=
  if n < 10 then Char.ofNat (48 + n) else Char.ofNat (87 + n)

/-- The escape `\uXXXX` of a code point below `0x10000`. -/
def unicodeEscape (n : Nat) : List Char :=
  [backslashChar, 'u', hexDigit (n / 4096 % 16), hexDigit (n / 256 % 16),
    hexDigit (n / 16 % 16), hexDigit (n % 16)]

/-- How the encoder writes one character of a string. -/
def escapeChar (c : Char) : List Char :=
  if c = quoteChar then [backslashChar, quoteChar]
  else if c = backslashChar then [backslashChar, backslashChar]
  else if c.toNat = 10 then [backslashChar, 'n']
  else if c.toNat = 13 then [backslashChar, 'r']
  else if c.toNat = 9 then [backslashChar, 't']
  else if c.toNat < 32 ∨ c = '<' ∨ c = '>' ∨ c = '&' ∨ c.toNat = 8232 ∨ c.toNat = 8233 then
    unicodeEscape c.toNat
  else [c]

/-- A JSON string literal. -/
def encodeString (s : String) : List Char :=
  quoteChar :: (s.toList.flatMap escapeChar ++ [quoteChar])

/-- The elements of a JSON array, separated by commas. -/
def encodeElems : List String → List Char
  | [] => []
  | [s] => encodeString s
  | s :: t => encodeString s ++ ',' :: encodeElems t

/-- A JSON array of strings. -/
def encodeArray (l : List String) : List Char := '[' :: (encodeElems l ++ [']'])

/-- The line `Encode` writes for a node. -/
def encodeNode (v : Nat) (ms : List String) : String :=
  String.mk ("\x7b\"ID\":".toList ++ (Nat.repr v).toList ++ ",\"MetaServers\":".toList
    ++ encodeArray ms ++ "\x7d\n".toList)

/-- The value of a hexadecimal digit. -/
def hexVal (c : Char) : Option Nat :=
  if 48 ≤ c.toNat ∧ c.toNat ≤ 57 then some (c.toNat - 48)
  else if 97 ≤ c.toNat ∧ c.toNat ≤ 102 then some (c.toNat - 87)
  else if 65 ≤ c.toNat ∧ c.toNat ≤ 70 then some (c.toNat - 55)
  else none

/-- The character a one-letter escape stands for. -/
def unescape (c : Char) : Option Char :=
  if c = quoteChar then some quoteChar
  else if c = backslashChar then some backslashChar
  else if c = '/' then some '/'
  else if c = 'n' then some (Char.ofNat 10)
  else if c = 'r' then some (Char.ofNat 13)
  else if c = 't' then some (Char.ofNat 9)
  else if c = 'b' then some (Char.ofNat 8)
  else if c = 'f' then some (Char.ofNat 12)
  else none

/-- Read the body of a string literal up to its closing quote; `acc` holds the characters
read so far, last first.  Returns the string and the rest of the input. -/
def readStringBody : Nat → List Char → List Char → Option (String × List Char)
  | 0, _, _ => none
  | _ + 1, [], _ => none
  | fuel + 1, c :: rest, acc =>
    if c = quoteChar then some (String.mk acc.reverse, rest)
    else if c = backslashChar then
      match rest with
      | 'u' :: h1 :: h2 :: h3 :: h4 :: rest2 =>
        match hexVal h1, hexVal h2, hexVal h3, hexVal h4 with
        | some a, some b, some c2, some d =>
          readStringBody fuel rest2 (Char.ofNat (a * 4096 + b * 256 + c2 * 16 + d) :: acc)
        | _, _, _, _ => none
      | e :: rest2 =>
        match unescape e with
        | some x => readStringBody fuel rest2 (x :: acc)
        | none => none
      | [] => none
    else if c.toNat < 32 then none
    else readStringBody fuel rest (c :: acc)

/-- Read a string literal. -/
def readString (cs : List Char) : Option (String × List Char) :=
  match cs with
  | c :: rest => if c = quoteChar then readStringBody cs.length rest [] else none
  | [] => none

/-- Read the elements of a non-empty array up to its closing bracket. -/
def readElems : Nat → List Char → List String → Option (List String × List Char)
  | 0, _, _ => none
  | fuel + 1, cs, acc =>
    match readString cs with
    | some (s, ',' :: rest) => readElems fuel rest (s :: acc)
    | some (s, ']' :: rest) => some ((s :: acc).reverse, rest)
    | _ => none

/-- Read an array of strings, or `null`. -/
def readArray (cs : List Char) : Option (List String × List Char) :=
  match cs with
  | 'n' :: 'u' :: 'l' :: 'l' :: rest => some ([], rest)
  | '[' :: ']' :: rest => some ([], rest)
  | '[' :: rest => readElems cs.length rest []
  | _ => none

/-- Read a run of decimal digits as a `uint64`. -/
def readUint (cs : List Char) : Option (Nat × List Char) :=
  let ds := cs.takeWhile (fun c => (digitVal c).isSome)
  match ParseUint (String.mk ds) with
  | .ok v => some (v, cs.dropWhile (fun c => (digitVal c).isSome))
  | .err _ => none

/-- Drop the given literal text from the front of the input. -/
def expect (lit : List Char) (cs : List Char) : Option (List Char) :=
  if lit.isPrefixOf cs then some (cs.drop lit.length) else none

/-- Decode the first JSON value of the file as a node, in the layout `encodeNode` writes. -/
def decodeNode (s : String) : Option (Nat × List String) :=
  match expect "\x7b\"ID\":".toList s.toList with
  | none => none
  | some r1 =>
    match readUint r1 with
    | none => none
    | some (v, r2) =>
      match expect ",\"MetaServers\":".toList r2 with
      | none => none
      | some r3 =>
        match readArray r3 with
        | none => none
        | some (ms, r4) =>
          match expect "\x7d".toList r4 with
          | none => none
          | some _ => some (v, ms)

/-- The slice `json.Unmarshal` leaves for a file holding an array of strings; a file that is
not one leaves the slice empty. -/
def decodePeers (s : String) : List String :=
  match readArray s.toList with
  | some (l, []) => l
  | some (l, [c]) => if c.toNat = 10 then l else []
  | _ => []

end PlainJSON

/-- The codec of the compact JSON layout. -/
def plainJSON : Codec :=
  { encodeNode := PlainJSON.encodeNode
    decodeNode := PlainJSON.decodeNode
    decodePeers := PlainJSON.decodePeers }

/-! ## Directory states used in the statements -/

/-- The directory has nothing to migrate: the marker is absent or empty, or there is no
peer-list file. -/
def NoMigration (path : String) (fs : FS) : Prop :=
  fs (join path oldNodeFile) = none ∨ fs (join path oldNodeFile) = some "" ∨
    fs (join path peersFilename) = none

/-- The file system after a migration in which no call fails. -/
def migrated (c : Codec) (path : String) (addrs : List String) (v : Nat) (fs : FS) : FS :=
  ((Save c noFaults { path := path, ID := v, MetaServers := addrs } fs).1).remove
    (join path oldNodeFile)

/-- The file system holding exactly the listed files. -/
def dirOf (files : List (String × String)) : FS := fun p => files.lookup p

end Influxdb

namespace Influxdb

/-! ## The paths of the four files are distinct -/

theorem tmp_ne_node (dir : String) : join dir nodeFile ++ "tmp" ≠ join dir nodeFile := by
  intro h
  have hlen := congrArg String.length h
  simp [String.length_append] at hlen
  exact absurd hlen (by decide)

theorem join_ne_join (dir a b : String) (h : a ≠ b) : join dir a ≠ join dir b := by
  intro e
  apply h
  unfold join at e
  have hdata := congrArg String.data e
  simp only [String.data_append, List.append_cancel_left_eq] at hdata
  exact String.ext hdata

theorem join_ne_tmp (dir a : String) (h : a ≠ nodeFile ++ "tmp") :
    join dir a ≠ join dir nodeFile ++ "tmp" := by
  intro e
  apply h
  unfold join at e
  have hdata := congrArg String.data e
  simp only [String.data_append, List.append_assoc, List.append_cancel_left_eq] at hdata
  apply String.ext
  simpa using hdata

theorem old_ne_node (dir : String) : join dir oldNodeFile ≠ join dir nodeFile :=
  join_ne_join dir _ _ (by decide)

theorem old_ne_tmp (dir : String) : join dir oldNodeFile ≠ join dir nodeFile ++ "tmp" :=
  join_ne_tmp dir _ (by decide)

theorem peers_ne_node (dir : String) : join dir peersFilename ≠ join dir nodeFile :=
  join_ne_join dir _ _ (by decide)

theorem peers_ne_tmp (dir : String) : join dir peersFilename ≠ join dir nodeFile ++ "tmp" :=
  join_ne_tmp dir _ (by decide)

theorem peers_ne_old (dir : String) : join dir peersFilename ≠ join dir oldNodeFile :=
  join_ne_join dir _ _ (by decide)

/-! ## What `Save` does to the file system -/

/-- `Save` touches no file but `node.json` and its temporary file. -/
theorem Save_other (c : Codec) (f : Faults) (n : Node) (fs : FS) (q : String)
    (h1 : q ≠ join n.path nodeFile) (h2 : q ≠ join n.path nodeFile ++ "tmp") :
    (Save c f n fs).1 q = fs q := by
  unfold Save
  simp only
  split
  · rfl
  · split
    · simp [FS.write, h2]
    · split
      · simp [FS.write, h2]
      · split
        · simp [FS.write, h2]
        · simp [FS.rename, FS.write, h1, h2]

/-- `Save` succeeds exactly when none of its four calls fails. -/
theorem Save_ok_iff (c : Codec) (f : Faults) (n : Node) (fs : FS) :
    (Save c f n fs).2 = .ok () ↔
      f.create = false ∧ f.encode = none ∧ f.close = false ∧ f.rename = false := by
  unfold Save
  simp only
  cases hc : f.create <;> cases he : f.encode <;> cases hl : f.close <;> cases hr : f.rename <;>
    simp

/-- After a successful `Save`, `node.json` holds the encoding of the node. -/
theorem Save_ok_nodeFile (c : Codec) (f : Faults) (n : Node) (fs : FS)
    (h : (Save c f n fs).2 = .ok ()) :
    (Save c f n fs).1 (join n.path nodeFile) = some (c.encodeNode n.ID n.MetaServers) := by
  obtain ⟨hc, he, hl, hr⟩ := (Save_ok_iff c f n fs).1 h
  unfold Save
  simp [hc, he, hl, hr, FS.rename, FS.write]

/-- A failed `Save` leaves `node.json` as it was. -/
theorem Save_err_nodeFile (c : Codec) (f : Faults) (n : Node) (fs : FS) (e : Error)
    (h : (Save c f n fs).2 = .err e) :
    (Save c f n fs).1 (join n.path nodeFile) = fs (join n.path nodeFile) := by
  have hne : join n.path nodeFile ≠ join n.path nodeFile ++ "tmp" :=
    fun h => tmp_ne_node n.path h.symm
  revert h
  unfold Save
  simp only
  split
  · intro _; rfl
  · split
    · intro _; simp [FS.write, hne]
    · split
      · intro _; simp [FS.write, hne]
      · split
        · intro _; simp [FS.write, hne]
        · intro h; simp at h

end Influxdb

namespace Influxdb

/-! ## What `upgradeNodeFile` and `LoadNode` do to the file system -/

/-- `LoadNode` changes the file system only through `upgradeNodeFile`. -/
theorem LoadNode_fs (c : Codec) (f : Faults) (path : String) (addrs : List String) (fs : FS) :
    (LoadNode c f path addrs fs).1 = (upgradeNodeFile c f path addrs fs).1 := by
  unfold LoadNode
  split
  · next h => simp [h]
  · next h =>
    simp only [h]
    (repeat' split) <;> rfl

/-- With nothing to migrate, `upgradeNodeFile` changes no file. -/
theorem upgrade_noMigration_fs (c : Codec) (f : Faults) (path : String) (addrs : List String)
    (fs : FS) (h : NoMigration path fs) : (upgradeNodeFile c f path addrs fs).1 = fs := by
  unfold upgradeNodeFile
  simp only
  rcases h with h | h | h
  · simp only [h]; split <;> rfl
  · simp only [h]; split <;> simp
  · split
    · rfl
    · split
      · rfl
      · split
        · rfl
        · simp only [h]; split <;> rfl

/-- With nothing to migrate and readable files, `upgradeNodeFile` returns nil. -/
theorem upgrade_noMigration_ok (c : Codec) (f : Faults) (path : String) (addrs : List String)
    (fs : FS) (h : NoMigration path fs) (h1 : f.readOld = false) (h2 : f.readPeers = false) :
    (upgradeNodeFile c f path addrs fs).2 = .ok () := by
  unfold upgradeNodeFile
  simp only [h1, h2]
  rcases h with h | h | h
  · simp [h]
  · simp [h]
  · simp only [h]
    cases fs (join path oldNodeFile) with
    | none => simp
    | some b => by_cases hb : b = "" <;> simp [hb]

/-- With nothing to migrate, `upgradeNodeFile` fails only on a failed read. -/
theorem upgrade_noMigration_res (c : Codec) (f : Faults) (path : String) (addrs : List String)
    (fs : FS) (h : NoMigration path fs) :
    (upgradeNodeFile c f path addrs fs).2 = .ok () ∨
      (upgradeNodeFile c f path addrs fs).2 = .err .ioFailure := by
  unfold upgradeNodeFile
  simp only
  rcases h with h | h | h
  · simp only [h]; split <;> simp
  · simp only [h]; split <;> simp
  · split
    · simp
    · split
      · simp
      · split
        · simp
        · simp only [h]; split <;> simp

/-- The migration itself: a readable non-empty marker that parses, a peer list of at most one
address, and no failing call. -/
theorem upgrade_migrates (c : Codec) (path : String) (addrs : List String) (fs : FS)
    (b pb : String) (v : Nat)
    (hold : fs (join path oldNodeFile) = some b) (hb : b ≠ "")
    (hpeers : fs (join path peersFilename) = some pb) (hlen : (c.decodePeers pb).length ≤ 1)
    (hv : ParseUint b = .ok v) :
    upgradeNodeFile c noFaults path addrs fs =
      (((Save c noFaults { path := path, ID := v, MetaServers := addrs } fs).1).remove
        (join path oldNodeFile), .ok ()) := by
  have hs : (Save c noFaults { path := path, ID := v, MetaServers := addrs } fs).2 = .ok () :=
    (Save_ok_iff _ _ _ _).2 ⟨rfl, rfl, rfl, rfl⟩
  unfold upgradeNodeFile
  simp only [hold, hpeers, hb, hv, Nat.not_lt.2 hlen]
  simp only [noFaults, Bool.false_eq_true, if_false]
  split
  · next fs1 e h =>
    have h2 := congrArg Prod.snd h
    simp only [noFaults] at hs
    rw [hs] at h2
    simp at h2
  · next fs1 u h =>
    have h1 := congrArg Prod.fst h
    simp only at h1
    rw [h1]

/-- The marker after `upgradeNodeFile`: either untouched, or removed after `node.json` was
written from it. -/
theorem upgrade_marker (c : Codec) (f : Faults) (path : String) (addrs : List String) (fs : FS)
    (b : String) (hold : fs (join path oldNodeFile) = some b) :
    ((upgradeNodeFile c f path addrs fs).1 (join path oldNodeFile) = some b ∧
        ((upgradeNodeFile c f path addrs fs).2 = .ok () → NoMigration path fs)) ∨
      ((upgradeNodeFile c f path addrs fs).1 (join path oldNodeFile) = none ∧
        (upgradeNodeFile c f path addrs fs).2 = .ok () ∧
        ∃ v, ParseUint b = .ok v ∧
          (upgradeNodeFile c f path addrs fs).1 (join path nodeFile)
            = some (c.encodeNode v addrs)) := by
  unfold upgradeNodeFile
  simp only [hold]
  split
  · left; simp [hold]
  · split
    · next hb => left; simp [hold, NoMigration, hb]
    · split
      · left; simp [hold]
      · split
        · next hp => left; simp [hold, NoMigration, hp]
        · split
          · left; simp [hold]
          · split
            · left; simp [hold]
            · next v hv =>
              split
              · next fs1 e h =>
                left
                have h1 := congrArg Prod.fst h
                simp only at h1
                rw [← h1, Save_other _ _ _ _ _ (old_ne_node path) (old_ne_tmp path)]
                simp [hold]
              · next fs1 u h =>
                have h1 := congrArg Prod.fst h
                have h2 := congrArg Prod.snd h
                simp only at h1 h2
                split
                · left
                  rw [← h1, Save_other _ _ _ _ _ (old_ne_node path) (old_ne_tmp path)]
                  simp [hold]
                · right
                  refine ⟨by simp [FS.remove], rfl, v, hv, ?_⟩
                  have hn := Save_ok_nodeFile c f
                    { path := path, ID := v, MetaServers := addrs } fs h2
                  simp only [FS.remove, if_neg (Ne.symm (old_ne_node path))]
                  rw [← h1]
                  exact hn

end Influxdb

namespace Influxdb

/-! ## `ParseUint` reads back the decimal text of every `uint64` -/

theorem digitVal_digitChar (k : Nat) (hk : k < 10) : digitVal (Nat.digitChar k) = some k := by
  interval_cases k <;> decide

theorem parseUintLoop_append (ds1 ds2 : List Char) (n : Nat) :
    parseUintLoop (ds1 ++ ds2) n =
      match parseUintLoop ds1 n with
      | .ok m => parseUintLoop ds2 m
      | .err e => .err e := by
  induction ds1 generalizing n with
  | nil => simp [parseUintLoop]
  | cons c cs ih =>
    simp only [List.cons_append, parseUintLoop]
    cases digitVal c with
    | none => simp
    | some d =>
      simp only
      split
      · rfl
      · split
        · rfl
        · exact ih _

theorem toDigitsCore_acc (fuel n : Nat) (ds : List Char) :
    Nat.toDigitsCore 10 fuel n ds = Nat.toDigitsCore 10 fuel n [] ++ ds := by
  induction fuel generalizing n ds with
  | zero => simp [Nat.toDigitsCore]
  | succ fuel ih =>
    simp only [Nat.toDigitsCore]
    split
    · simp
    · rw [ih (n / 10) (_ :: ds), ih (n / 10) [_]]
      simp

theorem parseUintLoop_toDigitsCore (fuel n : Nat) (hfuel : n < fuel) (hn : n ≤ maxUint64) :
    parseUintLoop (Nat.toDigitsCore 10 fuel n []) 0 = .ok n := by
  induction fuel generalizing n with
  | zero => omega
  | succ fuel ih =>
    have hd := digitVal_digitChar (n % 10) (Nat.mod_lt _ (by decide))
    simp only [Nat.toDigitsCore]
    split
    · next h0 =>
      have hlt : n < 10 := by omega
      simp only [parseUintLoop, hd, cutoff10, maxUint64]
      have : n % 10 = n := Nat.mod_eq_of_lt hlt
      simp only [this]
      norm_num
      simp only [maxUint64] at hn
      omega
    · next h0 =>
      rw [toDigitsCore_acc, parseUintLoop_append]
      have hlt : n / 10 < fuel := by omega
      have hle : n / 10 ≤ maxUint64 := le_trans (Nat.div_le_self _ _) hn
      rw [ih (n / 10) hlt hle]
      simp only [parseUintLoop, hd]
      have hmax : maxUint64 = 18446744073709551615 := by decide
      have hcut : cutoff10 = 1844674407370955162 := by decide
      rw [hmax] at hn
      have h1 : ¬ cutoff10 ≤ n / 10 := by rw [hcut]; omega
      have h2 : ¬ maxUint64 < n / 10 * 10 + n % 10 := by rw [hmax]; omega
      simp only [h1, h2, if_false]
      congr 1
      omega

theorem parseUintLoop_le (cs : List Char) (n v : Nat) (h : parseUintLoop cs n = .ok v)
    (hn : n ≤ maxUint64) : v ≤ maxUint64 := by
  induction cs generalizing n with
  | nil =>
    simp only [parseUintLoop, Res.ok.injEq] at h
    exact h ▸ hn
  | cons c cs ih =>
    simp only [parseUintLoop] at h
    cases hd : digitVal c with
    | none => simp [hd] at h
    | some d =>
      simp only [hd] at h
      split at h
      · simp at h
      · split at h
        · simp at h
        · next hmax => exact ih _ h (Nat.not_lt.1 hmax)

/-- What `ParseUint` returns fits in 64 bits. -/
theorem ParseUint_le (b : String) (v : Nat) (h : ParseUint b = .ok v) : v ≤ maxUint64 := by
  unfold ParseUint at h
  split at h
  · simp at h
  · exact parseUintLoop_le _ 0 v h (Nat.zero_le _)

/-- The decimal text of a `uint64` parses back to it. -/
theorem ParseUint_repr (v : Nat) (hv : v ≤ maxUint64) : ParseUint (Nat.repr v) = .ok v := by
  have hne : Nat.repr v ≠ "" := by
    intro h
    have hdata := congrArg String.data h
    simp only [Nat.repr, List.asString, Nat.toDigits, Nat.toDigitsCore] at hdata
    split at hdata
    · simp at hdata
    · rw [toDigitsCore_acc] at hdata
      simp at hdata
  unfold ParseUint
  rw [if_neg hne]
  exact parseUintLoop_toDigitsCore (v + 1) v (Nat.lt_succ_self v) hv

end Influxdb

namespace Influxdb

/-! ## `LoadNode` in its two regimes -/

theorem ParseUint_ok_ne_empty (b : String) (v : Nat) (h : ParseUint b = .ok v) : b ≠ "" := by
  intro hb
  rw [hb] at h
  simp [ParseUint] at h

/-- `Save` neither creates nor removes anything to migrate. -/
theorem NoMigration_Save (c : Codec) (f : Faults) (n : Node) (fs : FS)
    (h : NoMigration n.path fs) : NoMigration n.path (Save c f n fs).1 := by
  unfold NoMigration at *
  rw [Save_other _ _ _ _ _ (old_ne_node n.path) (old_ne_tmp n.path),
    Save_other _ _ _ _ _ (peers_ne_node n.path) (peers_ne_tmp n.path)]
  exact h

/-- With nothing to migrate and no failing read, `LoadNode` returns what `node.json` holds and
changes no file. -/
theorem LoadNode_noMigration (c : Codec) (f : Faults) (path : String) (addrs : List String)
    (fs : FS) (content : String) (v : Nat) (ms : List String)
    (hnm : NoMigration path fs) (hnode : fs (join path nodeFile) = some content)
    (hdec : c.decodeNode content = some (v, ms))
    (h1 : f.readOld = false) (h2 : f.readPeers = false) (h3 : f.openNode = false)
    (h4 : f.readNode = false) :
    LoadNode c f path addrs fs = (fs, .ok { path := path, ID := v, MetaServers := ms }) := by
  have hfs := upgrade_noMigration_fs c f path addrs fs hnm
  have hok := upgrade_noMigration_ok c f path addrs fs hnm h1 h2
  have hup : upgradeNodeFile c f path addrs fs = (fs, .ok ()) := Prod.ext hfs hok
  unfold LoadNode
  simp [hup, h3, h4, hnode, hdec]

/-- With nothing to migrate and no `node.json`, `LoadNode` changes no file and fails; the
error is the not-exist error of `os.Open` unless a read failed before. -/
theorem LoadNode_noMigration_absent (c : Codec) (f : Faults) (path : String)
    (addrs : List String) (fs : FS)
    (hnm : NoMigration path fs) (hnode : fs (join path nodeFile) = none) :
    (LoadNode c f path addrs fs).1 = fs ∧
      ((LoadNode c f path addrs fs).2 = .err .notExist ∨
        (LoadNode c f path addrs fs).2 = .err .ioFailure) ∧
      (f.readOld = false → f.readPeers = false → f.openNode = false →
        (LoadNode c f path addrs fs).2 = .err .notExist) := by
  have hfs := upgrade_noMigration_fs c f path addrs fs hnm
  refine ⟨by rw [LoadNode_fs, hfs], ?_, ?_⟩
  · rcases upgrade_noMigration_res c f path addrs fs hnm with hr | hr
    · have hup : upgradeNodeFile c f path addrs fs = (fs, .ok ()) := Prod.ext hfs hr
      unfold LoadNode
      cases h3 : f.openNode <;> simp [hup, hnode]
    · have hup : upgradeNodeFile c f path addrs fs = (fs, .err .ioFailure) := Prod.ext hfs hr
      unfold LoadNode
      simp [hup]
  · intro h1 h2 h3
    have hok := upgrade_noMigration_ok c f path addrs fs hnm h1 h2
    have hup : upgradeNodeFile c f path addrs fs = (fs, .ok ()) := Prod.ext hfs hok
    unfold LoadNode
    simp [hup, h3, hnode]

theorem migrated_nodeFile (c : Codec) (path : String) (addrs : List String) (v : Nat)
    (fs : FS) : migrated c path addrs v fs (join path nodeFile) = some (c.encodeNode v addrs) := by
  have hs : (Save c noFaults { path := path, ID := v, MetaServers := addrs } fs).2 = .ok () :=
    (Save_ok_iff _ _ _ _).2 ⟨rfl, rfl, rfl, rfl⟩
  have hn := Save_ok_nodeFile c noFaults { path := path, ID := v, MetaServers := addrs } fs hs
  unfold migrated
  simp only [FS.remove, if_neg (Ne.symm (old_ne_node path))]
  exact hn

theorem migrated_old (c : Codec) (path : String) (addrs : List String) (v : Nat) (fs : FS) :
    migrated c path addrs v fs (join path oldNodeFile) = none := by
  simp [migrated, FS.remove]

/-- A migration in which no call fails: `LoadNode` returns the identity built from the marker
and the seed addresses. -/
theorem LoadNode_migration (c : Codec) (path : String) (addrs : List String) (fs : FS)
    (b pb : String) (v : Nat)
    (hold : fs (join path oldNodeFile) = some b)
    (hpeers : fs (join path peersFilename) = some pb) (hlen : (c.decodePeers pb).length ≤ 1)
    (hv : ParseUint b = .ok v)
    (hrt : c.decodeNode (c.encodeNode v addrs) = some (v, addrs)) :
    LoadNode c noFaults path addrs fs =
      (migrated c path addrs v fs, .ok { path := path, ID := v, MetaServers := addrs }) := by
  have hup := upgrade_migrates c path addrs fs b pb v hold (ParseUint_ok_ne_empty b v hv)
    hpeers hlen hv
  have hn := migrated_nodeFile c path addrs v fs
  unfold LoadNode
  rw [hup]
  simp only [migrated] at hn
  simp only [hn, hrt, show noFaults.openNode = false from rfl,
    show noFaults.readNode = false from rfl, Bool.false_eq_true, if_false, migrated]

end Influxdb

namespace Influxdb

/-! ## The key set built by `AddMetaServers` -/

theorem mapInsert_nodup (keys : List String) (a : String) (h : keys.Nodup) :
    (mapInsert keys a).Nodup := by
  unfold mapInsert
  split
  · exact h
  · next hna =>
    rw [List.nodup_append]
    refine ⟨h, List.nodup_singleton a, ?_⟩
    intro x hx hx2
    rw [List.mem_singleton] at hx2
    exact hna (hx2 ▸ hx)

theorem mem_mapInsert (keys : List String) (a x : String) :
    x ∈ mapInsert keys a ↔ x ∈ keys ∨ x = a := by
  unfold mapInsert
  split
  · next ha =>
    constructor
    · exact Or.inl
    · rintro (h | h)
      · exact h
      · exact h ▸ ha
  · simp

theorem foldl_mapInsert_nodup (l keys : List String) (h : keys.Nodup) :
    (l.foldl mapInsert keys).Nodup := by
  induction l generalizing keys with
  | nil => exact h
  | cons a t ih => exact ih _ (mapInsert_nodup keys a h)

theorem mem_foldl_mapInsert (l keys : List String) (x : String) :
    x ∈ l.foldl mapInsert keys ↔ x ∈ keys ∨ x ∈ l := by
  induction l generalizing keys with
  | nil => simp
  | cons a t ih =>
    rw [List.foldl_cons, ih, mem_mapInsert, List.mem_cons]
    tauto

theorem foldl_append_singleton (l init : List String) :
    l.foldl (fun metaServers addr => metaServers ++ [addr]) init = init ++ l := by
  induction l generalizing init with
  | nil => simp
  | cons a t ih => rw [List.foldl_cons, ih]; simp

/-- The list `AddMetaServers` stores is the key set in the order of the iteration. -/
theorem AddMetaServers_MetaServers (order : List String → List String) (n : Node)
    (addrs : List String) :
    (AddMetaServers order n addrs).MetaServers =
      order (addrs.foldl mapInsert (n.MetaServers.foldl mapInsert [])) := by
  simp [AddMetaServers, foldl_append_singleton]

theorem AddMetaServers_nodup (order : List String → List String)
    (horder : ∀ l, (order l).Perm l) (n : Node) (addrs : List String) :
    (AddMetaServers order n addrs).MetaServers.Nodup := by
  rw [AddMetaServers_MetaServers, (horder _).nodup_iff]
  exact foldl_mapInsert_nodup _ _ (foldl_mapInsert_nodup _ _ List.nodup_nil)

theorem mem_AddMetaServers (order : List String → List String)
    (horder : ∀ l, (order l).Perm l) (n : Node) (addrs : List String) (a : String) :
    a ∈ (AddMetaServers order n addrs).MetaServers ↔ a ∈ n.MetaServers ∨ a ∈ addrs := by
  rw [AddMetaServers_MetaServers, (horder _).mem_iff, mem_foldl_mapInsert, mem_foldl_mapInsert]
  simp

end Influxdb

namespace Influxdb

/-! ## The claims -/

/-- C1: whenever `Save` returns an error (the creation of the temporary file, the encoding,
the close or the rename failed), the file `node.json` is exactly as it was before the call:
the same content if it existed, still absent if it did not. -/
theorem Save_failure_keeps_canonical_file (c : Codec) (f : Faults) (n : Node) (fs : FS)
    (e : Error) (h : (Save c f n fs).2 = .err e) :
    (Save c f n fs).1 (join n.path nodeFile) = fs (join n.path nodeFile) :=
  Save_err_nodeFile c f n fs e h

/-- C1 at a failing rename over an existing `node.json`. -/
theorem Save_failure_keeps_canonical_file_witness :
    (Save plainJSON { rename := true } { path := "d", ID := 5, MetaServers := ["m:1"] }
        (dirOf [("d/node.json", "old")])).2 = .err .ioFailure ∧
      (Save plainJSON { rename := true } { path := "d", ID := 5, MetaServers := ["m:1"] }
        (dirOf [("d/node.json", "old")])).1 (join "d" nodeFile) =
        dirOf [("d/node.json", "old")] (join "d" nodeFile) :=
  ⟨by decide, Save_failure_keeps_canonical_file plainJSON { rename := true }
    { path := "d", ID := 5, MetaServers := ["m:1"] } (dirOf [("d/node.json", "old")])
    .ioFailure (by decide)⟩

/-- C2 as stated fails: in a directory holding the marker `42` and an empty peer list,
`Save` of the identity with `ID = 1` succeeds, and the following `LoadNode` migrates the
marker over it and returns `ID = 42` with the seed list as `MetaServers`. -/
theorem Save_then_LoadNode_overridden_by_marker :
    plainJSON.decodeNode (plainJSON.encodeNode 1 ["m:1"]) = some (1, ["m:1"]) ∧
      (Save plainJSON noFaults { path := "d", ID := 1, MetaServers := ["m:1"] }
        (dirOf [("d/id", "42"), ("d/peers.json", "[]")])).2 = .ok () ∧
      (LoadNode plainJSON noFaults "d" []
        (Save plainJSON noFaults { path := "d", ID := 1, MetaServers := ["m:1"] }
          (dirOf [("d/id", "42"), ("d/peers.json", "[]")])).1).2
        = .ok { path := "d", ID := 42, MetaServers := [] } := by
  decide

/-- C2, amended: if the directory has nothing to migrate (the marker is absent or empty, or
there is no peer-list file) and the encoding is reversible at `N`, then after a successful
`Save` of `N` a `LoadNode` on the same directory whose reads do not fail returns `N`, for
every seed list, and changes no file. -/
theorem Save_then_LoadNode (c : Codec) (fsave fload : Faults) (N : Node) (fs : FS)
    (seeds : List String)
    (hrt : c.decodeNode (c.encodeNode N.ID N.MetaServers) = some (N.ID, N.MetaServers))
    (hnm : NoMigration N.path fs)
    (hsave : (Save c fsave N fs).2 = .ok ())
    (h1 : fload.readOld = false) (h2 : fload.readPeers = false)
    (h3 : fload.openNode = false) (h4 : fload.readNode = false) :
    LoadNode c fload N.path seeds (Save c fsave N fs).1 = ((Save c fsave N fs).1, .ok N) :=
  LoadNode_noMigration c fload N.path seeds (Save c fsave N fs).1
    (c.encodeNode N.ID N.MetaServers) N.ID N.MetaServers (NoMigration_Save c fsave N fs hnm)
    (Save_ok_nodeFile c fsave N fs hsave) hrt h1 h2 h3 h4

/-- C2, amended, in a directory with a marker but no peer-list file. -/
theorem Save_then_LoadNode_witness :
    LoadNode plainJSON noFaults "d" ["s:9"]
        (Save plainJSON noFaults { path := "d", ID := 1, MetaServers := ["m:1"] }
          (dirOf [("d/id", "42")])).1 =
      ((Save plainJSON noFaults { path := "d", ID := 1, MetaServers := ["m:1"] }
          (dirOf [("d/id", "42")])).1,
        .ok { path := "d", ID := 1, MetaServers := ["m:1"] }) :=
  Save_then_LoadNode plainJSON noFaults noFaults { path := "d", ID := 1, MetaServers := ["m:1"] }
    (dirOf [("d/id", "42")]) ["s:9"] (by decide) (Or.inr (Or.inr (by decide))) (by decide)
    rfl rfl rfl rfl

/-- C3 as stated fails: with the marker `42`, no peer-list file and the seed
`10.0.0.1:8088`, `upgradeNodeFile` returns at the missing peer-list file without migrating;
`LoadNode` then fails to open `node.json`, no `node.json` is written and the marker stays. -/
theorem LoadNode_marker_without_peers_file :
    (LoadNode plainJSON noFaults "d" ["10.0.0.1:8088"] (dirOf [("d/id", "42")])).2
        = .err .notExist ∧
      (LoadNode plainJSON noFaults "d" ["10.0.0.1:8088"] (dirOf [("d/id", "42")])).1
        "d/node.json" = none ∧
      (LoadNode plainJSON noFaults "d" ["10.0.0.1:8088"] (dirOf [("d/id", "42")])).1
        "d/id" = some "42" := by
  decide

/-- C3, amended: if the marker holds the decimal text of a `uint64` `v` and the peer-list
file exists and decodes to at most one address, then, with no failing call and an encoding
reversible at the new identity, `LoadNode` returns the identity with `ID = v` and
`MetaServers = S`, `node.json` holds its encoding and the marker is gone.  If the peer-list
file does not exist, `LoadNode` changes no file, whatever fails. -/
theorem LoadNode_migrates_marker (c : Codec) (path : String) (S : List String) (fs : FS)
    (v : Nat) (hv : v ≤ maxUint64)
    (hold : fs (join path oldNodeFile) = some (Nat.repr v))
    (hrt : c.decodeNode (c.encodeNode v S) = some (v, S)) :
    (∀ pb, fs (join path peersFilename) = some pb → (c.decodePeers pb).length ≤ 1 →
      (LoadNode c noFaults path S fs).2 = .ok { path := path, ID := v, MetaServers := S } ∧
      (LoadNode c noFaults path S fs).1 (join path nodeFile) = some (c.encodeNode v S) ∧
      (LoadNode c noFaults path S fs).1 (join path oldNodeFile) = none) ∧
    (fs (join path peersFilename) = none → ∀ f, (LoadNode c f path S fs).1 = fs) := by
  constructor
  · intro pb hpeers hlen
    rw [LoadNode_migration c path S fs (Nat.repr v) pb v hold hpeers hlen
      (ParseUint_repr v hv) hrt]
    exact ⟨rfl, migrated_nodeFile c path S v fs, migrated_old c path S v fs⟩
  · intro hpeers f
    rw [LoadNode_fs]
    exact upgrade_noMigration_fs c f path S fs (Or.inr (Or.inr hpeers))

/-- C3, amended, at the marker `42` with the seed `10.0.0.1:8088`: once with an empty peer
list, once without a peer-list file. -/
theorem LoadNode_migrates_marker_witness :
    ((LoadNode plainJSON noFaults "d" ["10.0.0.1:8088"]
          (dirOf [("d/id", "42"), ("d/peers.json", "[]")])).2
        = .ok { path := "d", ID := 42, MetaServers := ["10.0.0.1:8088"] } ∧
      (LoadNode plainJSON noFaults "d" ["10.0.0.1:8088"]
          (dirOf [("d/id", "42"), ("d/peers.json", "[]")])).1 (join "d" nodeFile)
        = some (plainJSON.encodeNode 42 ["10.0.0.1:8088"]) ∧
      (LoadNode plainJSON noFaults "d" ["10.0.0.1:8088"]
          (dirOf [("d/id", "42"), ("d/peers.json", "[]")])).1 (join "d" oldNodeFile) = none) ∧
    (∀ f, (LoadNode plainJSON f "d" ["10.0.0.1:8088"] (dirOf [("d/id", "42")])).1
        = dirOf [("d/id", "42")]) :=
  ⟨(LoadNode_migrates_marker plainJSON "d" ["10.0.0.1:8088"]
      (dirOf [("d/id", "42"), ("d/peers.json", "[]")]) 42 (by decide) (by decide)
      (by decide)).1 "[]" (by decide) (by decide),
    (LoadNode_migrates_marker plainJSON "d" ["10.0.0.1:8088"]
      (dirOf [("d/id", "42")]) 42 (by decide) (by decide) (by decide)).2 (by decide)⟩

end Influxdb

namespace Influxdb

/-- An error of `upgradeNodeFile` is the error of `LoadNode`. -/
theorem LoadNode_of_upgrade_err (c : Codec) (f : Faults) (path : String) (addrs : List String)
    (fs : FS) (e : Error) (h : (upgradeNodeFile c f path addrs fs).2 = .err e) :
    (LoadNode c f path addrs fs).2 = .err e := by
  unfold LoadNode
  split
  · next fs1 e1 hup =>
    rw [hup] at h
    simpa using h
  · next fs1 u hup =>
    rw [hup] at h
    simp at h

/-- With a non-empty marker and a peer list of two or more addresses, `upgradeNodeFile`
changes no file and fails: on a failed read with that failure, else with the
cluster-upgrade error. -/
theorem upgrade_conflict (c : Codec) (f : Faults) (path : String) (addrs : List String)
    (fs : FS) (b pb : String)
    (hold : fs (join path oldNodeFile) = some b) (hb : b ≠ "")
    (hpeers : fs (join path peersFilename) = some pb)
    (hlen : 2 ≤ (c.decodePeers pb).length) :
    (upgradeNodeFile c f path addrs fs).1 = fs ∧
      ((upgradeNodeFile c f path addrs fs).2 = .err .clusterUpgrade ∨
        (upgradeNodeFile c f path addrs fs).2 = .err .ioFailure) ∧
      (f.readOld = false → f.readPeers = false →
        (upgradeNodeFile c f path addrs fs).2 = .err .clusterUpgrade) := by
  have hl : 1 < (c.decodePeers pb).length := hlen
  unfold upgradeNodeFile
  simp only [hold, hpeers, hb, hl, if_true, if_false]
  cases f.readOld <;> cases f.readPeers <;> simp

/-- C4: in a directory with a non-empty marker and a peer-list file that decodes to two or
more addresses, `LoadNode` fails, creates or changes no file (so no `node.json` appears and
the marker keeps its content); when the two reads succeed the error is the cluster-upgrade
error. -/
theorem LoadNode_cluster_conflict (c : Codec) (f : Faults) (path : String) (S : List String)
    (fs : FS) (b pb : String)
    (hold : fs (join path oldNodeFile) = some b) (hb : b ≠ "")
    (hpeers : fs (join path peersFilename) = some pb)
    (hlen : 2 ≤ (c.decodePeers pb).length) :
    (LoadNode c f path S fs).1 = fs ∧
      (f.readOld = false → f.readPeers = false →
        (LoadNode c f path S fs).2 = .err .clusterUpgrade) ∧
      ∃ e, (LoadNode c f path S fs).2 = .err e := by
  obtain ⟨hfs, hres, hread⟩ := upgrade_conflict c f path S fs b pb hold hb hpeers hlen
  refine ⟨by rw [LoadNode_fs, hfs], ?_, ?_⟩
  · intro h1 h2
    exact LoadNode_of_upgrade_err c f path S fs _ (hread h1 h2)
  · rcases hres with h | h
    · exact ⟨_, LoadNode_of_upgrade_err c f path S fs _ h⟩
    · exact ⟨_, LoadNode_of_upgrade_err c f path S fs _ h⟩

/-- C4 at the marker `7` with the peer list `["a:1","b:2"]`. -/
theorem LoadNode_cluster_conflict_witness :
    (LoadNode plainJSON noFaults "d" []
        (dirOf [("d/id", "7"), ("d/peers.json", "[\"a:1\",\"b:2\"]")])).1
      = dirOf [("d/id", "7"), ("d/peers.json", "[\"a:1\",\"b:2\"]")] ∧
    (LoadNode plainJSON noFaults "d" []
        (dirOf [("d/id", "7"), ("d/peers.json", "[\"a:1\",\"b:2\"]")])).2
      = .err .clusterUpgrade :=
  ⟨(LoadNode_cluster_conflict plainJSON noFaults "d" []
      (dirOf [("d/id", "7"), ("d/peers.json", "[\"a:1\",\"b:2\"]")]) "7" "[\"a:1\",\"b:2\"]"
      (by decide) (by decide) (by decide) (by decide)).1,
    (LoadNode_cluster_conflict plainJSON noFaults "d" []
      (dirOf [("d/id", "7"), ("d/peers.json", "[\"a:1\",\"b:2\"]")]) "7" "[\"a:1\",\"b:2\"]"
      (by decide) (by decide) (by decide) (by decide)).2.1 rfl rfl⟩

/-- C5 as stated fails: on the empty directory `LoadNode` returns no identity but the
not-exist error of opening `node.json`. -/
theorem LoadNode_empty_directory_fails :
    (LoadNode plainJSON noFaults "d" ["10.0.0.1:8088"] (dirOf [])).2 = .err .notExist := by
  decide

/-- C5, amended: on an empty directory, for every seed list, `LoadNode` returns an error and
no identity, and the directory is still empty afterwards; the error is the not-exist error of
opening `node.json` unless a call failed before. -/
theorem LoadNode_first_boot (c : Codec) (f : Faults) (path : String) (S : List String)
    (fs : FS) (hempty : ∀ name, fs (join path name) = none) :
    (LoadNode c f path S fs).1 = fs ∧
      ((LoadNode c f path S fs).2 = .err .notExist ∨
        (LoadNode c f path S fs).2 = .err .ioFailure) ∧
      (f.readOld = false → f.readPeers = false → f.openNode = false →
        (LoadNode c f path S fs).2 = .err .notExist) :=
  LoadNode_noMigration_absent c f path S fs (Or.inl (hempty oldNodeFile)) (hempty nodeFile)

/-- C5, amended, on the directory without any file. -/
theorem LoadNode_first_boot_witness :
    (LoadNode plainJSON noFaults "d" ["10.0.0.1:8088"] (dirOf [])).1 = dirOf [] ∧
      (LoadNode plainJSON noFaults "d" ["10.0.0.1:8088"] (dirOf [])).2 = .err .notExist :=
  ⟨(LoadNode_first_boot plainJSON noFaults "d" ["10.0.0.1:8088"] (dirOf [])
      (fun _ => rfl)).1,
    (LoadNode_first_boot plainJSON noFaults "d" ["10.0.0.1:8088"] (dirOf [])
      (fun _ => rfl)).2.2 rfl rfl rfl⟩

/-- C6: if the marker holds the decimal text of a `uint64` `v` and the peer-list file decodes
to a single address, then, with no failing call and an encoding reversible at the migrated
identity, two consecutive `LoadNode` calls (with any seed lists) both succeed and both return
`ID = v`, and the marker is absent after the first call. -/
theorem LoadNode_twice (c : Codec) (path : String) (S1 S2 : List String) (fs : FS)
    (pb : String) (v : Nat) (hv : v ≤ maxUint64)
    (hold : fs (join path oldNodeFile) = some (Nat.repr v))
    (hpeers : fs (join path peersFilename) = some pb)
    (hlen : (c.decodePeers pb).length = 1)
    (hrt : c.decodeNode (c.encodeNode v S1) = some (v, S1)) :
    (LoadNode c noFaults path S1 fs).2 = .ok { path := path, ID := v, MetaServers := S1 } ∧
      (LoadNode c noFaults path S1 fs).1 (join path oldNodeFile) = none ∧
      (LoadNode c noFaults path S2 (LoadNode c noFaults path S1 fs).1).2
        = .ok { path := path, ID := v, MetaServers := S1 } := by
  rw [LoadNode_migration c path S1 fs (Nat.repr v) pb v hold hpeers (le_of_eq hlen)
    (ParseUint_repr v hv) hrt]
  refine ⟨rfl, migrated_old c path S1 v fs, ?_⟩
  rw [LoadNode_noMigration c noFaults path S2 (migrated c path S1 v fs) (c.encodeNode v S1) v
    S1 (Or.inl (migrated_old c path S1 v fs)) (migrated_nodeFile c path S1 v fs) hrt
    rfl rfl rfl rfl]

/-- C6 at the marker `42` with the single peer `a:1`. -/
theorem LoadNode_twice_witness :
    (LoadNode plainJSON noFaults "d" ["s:1"]
        (dirOf [("d/id", "42"), ("d/peers.json", "[\"a:1\"]")])).2
      = .ok { path := "d", ID := 42, MetaServers := ["s:1"] } ∧
    (LoadNode plainJSON noFaults "d" ["s:1"]
        (dirOf [("d/id", "42"), ("d/peers.json", "[\"a:1\"]")])).1 (join "d" oldNodeFile)
      = none ∧
    (LoadNode plainJSON noFaults "d" ["s:2"]
        (LoadNode plainJSON noFaults "d" ["s:1"]
          (dirOf [("d/id", "42"), ("d/peers.json", "[\"a:1\"]")])).1).2
      = .ok { path := "d", ID := 42, MetaServers := ["s:1"] } :=
  LoadNode_twice plainJSON "d" ["s:1"] ["s:2"]
    (dirOf [("d/id", "42"), ("d/peers.json", "[\"a:1\"]")]) "[\"a:1\"]" 42
    (by decide) (by decide) (by decide) (by decide) (by decide)

/-- C7: whatever order the map iteration takes, after `AddMetaServers(addrs)` on a node whose
list is `M` the list contains no address twice, and an address occurs in it if and only if it
occurs in `M` or in `addrs`; on a node with empty `M` its members are exactly those of
`addrs`. -/
theorem AddMetaServers_union (order : List String → List String)
    (horder : ∀ l, (order l).Perm l) (n : Node) (addrs : List String) :
    (AddMetaServers order n addrs).MetaServers.Nodup ∧
      (∀ a, a ∈ (AddMetaServers order n addrs).MetaServers ↔ a ∈ n.MetaServers ∨ a ∈ addrs) ∧
      (n.MetaServers = [] →
        ∀ a, a ∈ (AddMetaServers order n addrs).MetaServers ↔ a ∈ addrs) := by
  refine ⟨AddMetaServers_nodup order horder n addrs, mem_AddMetaServers order horder n addrs, ?_⟩
  intro hM a
  rw [mem_AddMetaServers order horder n addrs a, hM]
  simp

/-- C7 with the iteration running backwards, on lists with duplicates. -/
theorem AddMetaServers_union_witness :
    (AddMetaServers List.reverse { path := "d", ID := 1, MetaServers := ["a", "b", "a"] }
        ["b", "c", "c"]).MetaServers.Nodup ∧
      (∀ a, a ∈ (AddMetaServers List.reverse
          { path := "d", ID := 1, MetaServers := ["a", "b", "a"] } ["b", "c", "c"]).MetaServers
        ↔ a ∈ ["a", "b", "a"] ∨ a ∈ ["b", "c", "c"]) ∧
      (∀ a, a ∈ (AddMetaServers List.reverse (NewNode "d" []) ["b", "c", "c"]).MetaServers
        ↔ a ∈ ["b", "c", "c"]) :=
  ⟨(AddMetaServers_union List.reverse List.reverse_perm
      { path := "d", ID := 1, MetaServers := ["a", "b", "a"] } ["b", "c", "c"]).1,
    (AddMetaServers_union List.reverse List.reverse_perm
      { path := "d", ID := 1, MetaServers := ["a", "b", "a"] } ["b", "c", "c"]).2.1,
    (AddMetaServers_union List.reverse List.reverse_perm (NewNode "d" [])
      ["b", "c", "c"]).2.2 rfl⟩

end Influxdb

namespace Influxdb

/-- C8 as stated fails: `node.json` holds `ID = 1`, the directory also holds the marker `42`
and an empty peer list; `LoadNode` succeeds, returns `ID = 42`, and `node.json` then holds
`ID = 42`. -/
theorem LoadNode_overwrites_persisted_ID :
    plainJSON.decodeNode "\x7b\"ID\":1,\"MetaServers\":[]\x7d\n" = some (1, []) ∧
      (LoadNode plainJSON noFaults "d" ["s:1"]
        (dirOf [("d/node.json", "\x7b\"ID\":1,\"MetaServers\":[]\x7d\n"), ("d/id", "42"),
          ("d/peers.json", "[]")])).2
        = .ok { path := "d", ID := 42, MetaServers := ["s:1"] } ∧
      ((LoadNode plainJSON noFaults "d" ["s:1"]
        (dirOf [("d/node.json", "\x7b\"ID\":1,\"MetaServers\":[]\x7d\n"), ("d/id", "42"),
          ("d/peers.json", "[]")])).1 "d/node.json").bind plainJSON.decodeNode
        = some (42, ["s:1"]) := by
  decide

/-- A successful `LoadNode` returns what `node.json` decodes to after `upgradeNodeFile`
returned nil. -/
theorem LoadNode_ok_inv (c : Codec) (f : Faults) (path : String) (S : List String) (fs : FS)
    (n : Node) (hok : (LoadNode c f path S fs).2 = .ok n) :
    (upgradeNodeFile c f path S fs).2 = .ok () ∧
      ∃ content v ms, (upgradeNodeFile c f path S fs).1 (join path nodeFile) = some content ∧
        c.decodeNode content = some (v, ms) ∧
        n = { path := path, ID := v, MetaServers := ms } := by
  unfold LoadNode at hok
  split at hok
  · simp at hok
  · next fs1 u hup =>
    rw [hup]
    refine ⟨rfl, ?_⟩
    split at hok
    · simp at hok
    · split at hok
      · simp at hok
      · next content hcontent =>
        split at hok
        · simp at hok
        · split at hok
          · simp at hok
          · next v ms hdec =>
            simp only [Res.ok.injEq] at hok
            exact ⟨content, v, ms, hcontent, hdec, hok.symm⟩

/-- C8, amended: if `node.json` holds `ID = i` and the directory has nothing to migrate (the
marker is absent or empty, or there is no peer-list file) or its marker parses to `i` itself,
then for every seed list and every pattern of failures, after a successful `LoadNode` the
file `node.json` still holds `ID = i` and the returned identity has `ID = i`; with nothing to
migrate no file is changed at all. -/
theorem LoadNode_keeps_persisted_ID (c : Codec) (f : Faults) (path : String) (S : List String)
    (fs : FS) (content : String) (i : Nat) (ms : List String) (n : Node)
    (hnode : fs (join path nodeFile) = some content)
    (hdec : c.decodeNode content = some (i, ms))
    (hrt : c.decodeNode (c.encodeNode i S) = some (i, S))
    (hmig : NoMigration path fs ∨ ∃ b, fs (join path oldNodeFile) = some b ∧ ParseUint b = .ok i)
    (hok : (LoadNode c f path S fs).2 = .ok n) :
    n.ID = i ∧
      (∃ content1 ms1, (LoadNode c f path S fs).1 (join path nodeFile) = some content1 ∧
        c.decodeNode content1 = some (i, ms1)) ∧
      (NoMigration path fs → (LoadNode c f path S fs).1 = fs) := by
  obtain ⟨hup, content1, v, ms1, hc1, hd1, hn⟩ := LoadNode_ok_inv c f path S fs n hok
  rw [LoadNode_fs]
  have key : NoMigration path fs → n.ID = i ∧
      ∃ content1 ms1, (upgradeNodeFile c f path S fs).1 (join path nodeFile) = some content1 ∧
        c.decodeNode content1 = some (i, ms1) := by
    intro hnm
    have hfs := upgrade_noMigration_fs c f path S fs hnm
    rw [hfs] at hc1 ⊢
    rw [hnode] at hc1
    have hcc : content = content1 := Option.some.inj hc1
    rw [← hcc, hdec] at hd1
    have hv : i = v := (Prod.mk.inj (Option.some.inj hd1)).1
    exact ⟨by rw [hn, hv], content, ms, hnode, hdec⟩
  refine ⟨?_, ?_, fun hnm => upgrade_noMigration_fs c f path S fs hnm⟩
  · rcases hmig with hnm | ⟨b, hold, hb⟩
    · exact (key hnm).1
    · rcases upgrade_marker c f path S fs b hold with ⟨_, hk⟩ | ⟨_, _, w, hw, hfile⟩
      · exact (key (hk hup)).1
      · rw [hb] at hw
        have hwi : i = w := Res.ok.inj hw
        rw [← hwi, hc1] at hfile
        rw [Option.some.inj hfile, hrt] at hd1
        have hv : i = v := (Prod.mk.inj (Option.some.inj hd1)).1
        rw [hn, hv]
  · rcases hmig with hnm | ⟨b, hold, hb⟩
    · exact (key hnm).2
    · rcases upgrade_marker c f path S fs b hold with ⟨_, hk⟩ | ⟨_, _, w, hw, hfile⟩
      · exact (key (hk hup)).2
      · rw [hb] at hw
        have hwi : i = w := Res.ok.inj hw
        rw [← hwi] at hfile
        exact ⟨_, S, hfile, hrt⟩

/-- C8, amended, with `node.json` holding `ID = 42` beside the marker `42` and an empty peer
list: the migration runs again and the `ID` stays. -/
theorem LoadNode_keeps_persisted_ID_witness :
    ({ path := "d", ID := 42, MetaServers := ["s:1"] } : Node).ID = 42 ∧
      (∃ content1 ms1, (LoadNode plainJSON noFaults "d" ["s:1"]
          (dirOf [("d/node.json", "\x7b\"ID\":42,\"MetaServers\":[]\x7d\n"), ("d/id", "42"),
            ("d/peers.json", "[]")])).1 (join "d" nodeFile) = some content1 ∧
        plainJSON.decodeNode content1 = some (42, ms1)) :=
  ⟨(LoadNode_keeps_persisted_ID plainJSON noFaults "d" ["s:1"]
      (dirOf [("d/node.json", "\x7b\"ID\":42,\"MetaServers\":[]\x7d\n"), ("d/id", "42"),
        ("d/peers.json", "[]")])
      "\x7b\"ID\":42,\"MetaServers\":[]\x7d\n" 42 []
      { path := "d", ID := 42, MetaServers := ["s:1"] }
      (by decide) (by decide) (by decide) (Or.inr ⟨"42", by decide, by decide⟩)
      (by decide)).1,
    (LoadNode_keeps_persisted_ID plainJSON noFaults "d" ["s:1"]
      (dirOf [("d/node.json", "\x7b\"ID\":42,\"MetaServers\":[]\x7d\n"), ("d/id", "42"),
        ("d/peers.json", "[]")])
      "\x7b\"ID\":42,\"MetaServers\":[]\x7d\n" 42 []
      { path := "d", ID := 42, MetaServers := ["s:1"] }
      (by decide) (by decide) (by decide) (Or.inr ⟨"42", by decide, by decide⟩)
      (by decide)).2.1⟩

/-- C9 as stated fails: `NewNode` with the address `a` given twice has it twice in
`MetaServers`, and so has the identity that migration builds from that seed list. -/
theorem MetaServers_with_duplicates :
    ¬ (NewNode "d" ["a", "a"]).MetaServers.Nodup ∧
      (LoadNode plainJSON noFaults "d" ["a", "a"]
        (dirOf [("d/id", "42"), ("d/peers.json", "[]")])).2
        = .ok { path := "d", ID := 42, MetaServers := ["a", "a"] } := by
  decide

/-- C9, amended: `NewNode(path, addrs)` and the identity that a migration builds and writes to
`node.json` store `addrs` as given, so their `MetaServers` has no duplicate address exactly
when `addrs` has none; the list `AddMetaServers` leaves has no duplicate address, whatever
the list before and the input. -/
theorem MetaServers_nodup (path : String) (addrs : List String) :
    ((NewNode path addrs).MetaServers.Nodup ↔ addrs.Nodup) ∧
      (∀ (c : Codec) (fs : FS) (b pb : String) (v : Nat),
        fs (join path oldNodeFile) = some b → fs (join path peersFilename) = some pb →
        (c.decodePeers pb).length ≤ 1 → ParseUint b = .ok v →
        c.decodeNode (c.encodeNode v addrs) = some (v, addrs) →
        ∃ n, (LoadNode c noFaults path addrs fs).2 = .ok n ∧
          (LoadNode c noFaults path addrs fs).1 (join path nodeFile)
            = some (c.encodeNode n.ID n.MetaServers) ∧
          (n.MetaServers.Nodup ↔ addrs.Nodup)) ∧
      (∀ (order : List String → List String), (∀ l, (order l).Perm l) →
        ∀ n : Node, (AddMetaServers order n addrs).MetaServers.Nodup) := by
  refine ⟨Iff.rfl, ?_, ?_⟩
  · intro c fs b pb v hold hpeers hlen hv hrt
    rw [LoadNode_migration c path addrs fs b pb v hold hpeers hlen hv hrt]
    exact ⟨_, rfl, migrated_nodeFile c path addrs v fs, Iff.rfl⟩
  · intro order horder n
    exact AddMetaServers_nodup order horder n addrs

/-- C9, amended, at the seed list `["a", "b"]`. -/
theorem MetaServers_nodup_witness :
    ((NewNode "d" ["a", "b"]).MetaServers.Nodup ↔ ["a", "b"].Nodup) ∧
      (∃ n, (LoadNode plainJSON noFaults "d" ["a", "b"]
            (dirOf [("d/id", "42"), ("d/peers.json", "[]")])).2 = .ok n ∧
          (LoadNode plainJSON noFaults "d" ["a", "b"]
            (dirOf [("d/id", "42"), ("d/peers.json", "[]")])).1 (join "d" nodeFile)
            = some (plainJSON.encodeNode n.ID n.MetaServers) ∧
          (n.MetaServers.Nodup ↔ ["a", "b"].Nodup)) ∧
      (AddMetaServers List.reverse { path := "d", ID := 0, MetaServers := ["a", "a"] }
        ["a", "b"]).MetaServers.Nodup :=
  ⟨(MetaServers_nodup "d" ["a", "b"]).1,
    (MetaServers_nodup "d" ["a", "b"]).2.1 plainJSON
      (dirOf [("d/id", "42"), ("d/peers.json", "[]")]) "42" "[]" 42
      (by decide) (by decide) (by decide) (by decide) (by decide),
    (MetaServers_nodup "d" ["a", "b"]).2.2 List.reverse List.reverse_perm
      { path := "d", ID := 0, MetaServers := ["a", "a"] }⟩

/-- C10: for every directory, seed list `S` and pattern of failures, if the marker was
present before `LoadNode` and is absent after it, then the marker parsed as an unsigned
64-bit integer `v` and `node.json` holds the encoding of the identity with `ID = v` and
`MetaServers = S`; and whenever `upgradeNodeFile` returns an error (peer conflict, parse
failure, failed `Save`, failed read or removal) the marker is still there with its
content. -/
theorem migration_keeps_legacy_id (c : Codec) (f : Faults) (path : String) (S : List String)
    (fs : FS) (b : String) (hold : fs (join path oldNodeFile) = some b) :
    ((LoadNode c f path S fs).1 (join path oldNodeFile) = none →
        ∃ v, v ≤ maxUint64 ∧ ParseUint b = .ok v ∧
          (LoadNode c f path S fs).1 (join path nodeFile) = some (c.encodeNode v S)) ∧
      (∀ e, (upgradeNodeFile c f path S fs).2 = .err e →
        (upgradeNodeFile c f path S fs).1 (join path oldNodeFile) = some b) := by
  rw [LoadNode_fs]
  rcases upgrade_marker c f path S fs b hold with ⟨hkeep, _⟩ | ⟨_, hok, hv⟩
  · refine ⟨?_, fun _ _ => hkeep⟩
    intro habs
    rw [hkeep] at habs
    simp at habs
  · obtain ⟨v, hpv, hfile⟩ := hv
    refine ⟨fun _ => ⟨v, ParseUint_le b v hpv, hpv, hfile⟩, ?_⟩
    intro e he
    rw [hok] at he
    simp at he

/-- C10 at the marker `42` with an empty peer list: once with no failure, once with a
failing rename inside `Save`. -/
theorem migration_keeps_legacy_id_witness :
    (∃ v, v ≤ maxUint64 ∧ ParseUint "42" = .ok v ∧
        (LoadNode plainJSON noFaults "d" ["s:1"]
          (dirOf [("d/id", "42"), ("d/peers.json", "[]")])).1 (join "d" nodeFile)
          = some (plainJSON.encodeNode v ["s:1"])) ∧
      (upgradeNodeFile plainJSON { rename := true } "d" ["s:1"]
        (dirOf [("d/id", "42"), ("d/peers.json", "[]")])).1 (join "d" oldNodeFile)
        = some "42" :=
  ⟨(migration_keeps_legacy_id plainJSON noFaults "d" ["s:1"]
      (dirOf [("d/id", "42"), ("d/peers.json", "[]")]) "42" (by decide)).1 (by decide),
    (migration_keeps_legacy_id plainJSON { rename := true } "d" ["s:1"]
      (dirOf [("d/id", "42"), ("d/peers.json", "[]")]) "42" (by decide)).2 .ioFailure
      (by decide)⟩

end Influxdb
